import Mathlib

/-!
Shallow embedding of the news-aggregation core of this repository:
the in-memory article store (server/storage.ts), the provider
parameter building (server/services/newsService.ts), the zod filter
schema (shared schema file), the Gemini summarization service, the
summarize-article route handler (server/routes.ts) and the
voice-command normalizer (useVoiceSearch hook).

Modelling conventions:
* `randomUUID()` keys are modelled as opaque ids drawn from a fresh
  counter (`Store.nextId`); only equality of ids is ever used by the
  code, so the identity of the generator is irrelevant.
* JavaScript `Map` is modelled as an association list in insertion
  order; `Map.set` replaces in place when the key exists and appends
  otherwise, exactly as in the ECMAScript specification.
* `Date` values (`publishedAt`, `createdAt`) are modelled as integer
  millisecond timestamps.
* JavaScript string truthiness (`if (x)` on a possibly-absent string)
  is modelled by `truthy : Option String → Bool` — absent and the
  empty string are falsy; number truthiness treats 0 as falsy.
* `Array.prototype.sort` with a consistent comparator is stable
  (ES2019); the call in `getArticles` is modelled by a stable
  insertion sort descending on `publishedAt`.
* The single `ai.models.generateContent` call is modelled by its
  outcome `EngineOutcome`: a thrown error (`err`, covering timeout and
  transport failures) or a response whose `text` field is an optional
  string (`ok`).
-/

namespace NewsCore

/-! Charwise embeddings of the JavaScript string operations used by
the code (`trim`, `toLowerCase`, `startsWith`, `substring`, `split`),
defined by structural recursion over the character list. -/

/-- A whitespace character as trimmed by `String.prototype.trim`. -/
def isWS (c : Char) : Bool :=
  c == ' ' || c == '\t' || c == '\n' || c == '\r'

/-- `String.prototype.trim`. -/
def jsTrim (s : String) : String :=
  String.mk (((s.data.dropWhile isWS).reverse.dropWhile isWS).reverse)

/-- `String.prototype.toLowerCase`. -/
def jsToLower (s : String) : String :=
  String.mk (s.data.map Char.toLower)

/-- `String.prototype.startsWith`. -/
def jsStartsWith (s p : String) : Bool :=
  p.data.isPrefixOf s.data

/-- `String.prototype.substring(n)`: drop the first `n` characters. -/
def jsDrop (s : String) (n : Nat) : String :=
  String.mk (s.data.drop n)

def splitCommaAux : List Char → List Char → List String
  | [], acc => [String.mk acc.reverse]
  | c :: rest, acc =>
      if c == ',' then String.mk acc.reverse :: splitCommaAux rest []
      else splitCommaAux rest (c :: acc)

/-- `String.prototype.split(s)` on a comma. -/
def splitComma (s : String) : List String :=
  splitCommaAux s.data []

/-- The `source` jsonb payload of an article: `{id: string | null, name: string}`. -/
structure Source where
  id : Option String
  name : String
deriving DecidableEq

/-- A stored article (the `articles` row shape of the shared schema). -/
structure Article where
  id : Nat
  title : String
  description : Option String
  content : Option String
  url : String
  urlToImage : Option String
  publishedAt : Int
  source : Source
  author : Option String
  category : Option String
  country : Option String
  aiSummary : Option String
  createdAt : Int
deriving DecidableEq

/-- An article draft as accepted by `createArticle` (`InsertArticle`:
the article shape with `id` and `createdAt` omitted). -/
structure InsertArticle where
  title : String
  description : Option String
  content : Option String
  url : String
  urlToImage : Option String
  publishedAt : Int
  source : Source
  author : Option String
  category : Option String
  country : Option String
  aiSummary : Option String
deriving DecidableEq

/-- A `Partial<Article>` update object: each field is present or absent. -/
structure PartialArticle where
  id : Option Nat := none
  title : Option String := none
  description : Option (Option String) := none
  content : Option (Option String) := none
  url : Option String := none
  urlToImage : Option (Option String) := none
  publishedAt : Option Int := none
  source : Option Source := none
  author : Option (Option String) := none
  category : Option (Option String) := none
  country : Option (Option String) := none
  aiSummary : Option (Option String) := none
  createdAt : Option Int := none
deriving DecidableEq

/-- The spread merge `{...existing, ...updates}` of `updateArticle`. -/
def applyUpdates (a : Article) (u : PartialArticle) : Article :=
  { id := u.id.getD a.id
    title := u.title.getD a.title
    description := u.description.getD a.description
    content := u.content.getD a.content
    url := u.url.getD a.url
    urlToImage := u.urlToImage.getD a.urlToImage
    publishedAt := u.publishedAt.getD a.publishedAt
    source := u.source.getD a.source
    author := u.author.getD a.author
    category := u.category.getD a.category
    country := u.country.getD a.country
    aiSummary := u.aiSummary.getD a.aiSummary
    createdAt := u.createdAt.getD a.createdAt }

/-- The `MemStorage` articles map plus the fresh-id counter that
models `randomUUID`. -/
structure Store where
  entries : List (Nat × Article)
  nextId : Nat
deriving DecidableEq

def emptyStore : Store := { entries := [], nextId := 0 }

def Store.keys (s : Store) : List Nat := s.entries.map (fun e => e.1)

/-- `Array.from(this.articles.values())`: values in insertion order. -/
def Store.values (s : Store) : List Article := s.entries.map (fun e => e.2)

/-- `Map.prototype.set`: replace in place when the key exists, append otherwise. -/
def mapSet : List (Nat × Article) → Nat → Article → List (Nat × Article)
  | [], k, a => [(k, a)]
  | (k', a') :: rest, k, a =>
      if k' = k then (k, a) :: rest else (k', a') :: mapSet rest k a

/-- `Map.prototype.get`. -/
def lookupEntry : List (Nat × Article) → Nat → Option Article
  | [], _ => none
  | (k, a) :: rest, id => if k = id then some a else lookupEntry rest id

/-- `MemStorage.createArticle`: assign a fresh id and the current time
as `createdAt`, store, and return the stored value. -/
def createArticle (now : Int) (draft : InsertArticle) (s : Store) : Article × Store :=
  let id := s.nextId
  let article : Article :=
    { id := id
      title := draft.title
      description := draft.description
      content := draft.content
      url := draft.url
      urlToImage := draft.urlToImage
      publishedAt := draft.publishedAt
      source := draft.source
      author := draft.author
      category := draft.category
      country := draft.country
      aiSummary := draft.aiSummary
      createdAt := now }
  (article, { entries := mapSet s.entries id article, nextId := s.nextId + 1 })

/-- `MemStorage.updateArticle`: throws when the id is unknown,
otherwise stores and returns the spread merge. -/
def updateArticle (s : Store) (id : Nat) (u : PartialArticle) :
    Except String (Article × Store) :=
  match lookupEntry s.entries id with
  | none => .error "Article not found"
  | some existing =>
      let updated := applyUpdates existing u
      .ok (updated, { s with entries := mapSet s.entries id updated })

/-- JavaScript truthiness of a possibly-absent string. -/
def truthy : Option String → Bool
  | some s => !(s == "")
  | none => false

/-- The filter argument of `MemStorage.getArticles`. -/
structure StoreFilters where
  country : Option String
  category : Option String
  sources : Option (List String)

def noFilters : StoreFilters := { country := none, category := none, sources := none }

/-- The sources test of `getArticles`:
`filters.sources.includes(source?.name || source?.id)` — the id is
consulted only when the name is falsy. -/
def sourcesMatch (srcs : List String) (src : Source) : Bool :=
  match (if src.name == "" then src.id else some src.name) with
  | some v => srcs.contains v
  | none => false

/-- Stable insertion descending on `publishedAt`: walk past strictly
newer elements, insert before the first element that is not newer. -/
def insertDesc (a : Article) : List Article → List Article
  | [] => [a]
  | b :: l =>
      if a.publishedAt < b.publishedAt then b :: insertDesc a l
      else a :: b :: l

/-- The stable sort `articles.sort((a, b) => dateOf b - dateOf a)`,
descending on `publishedAt` with ties kept in input order. -/
def sortByPublishedAt : List Article → List Article
  | [] => []
  | a :: l => insertDesc a (sortByPublishedAt l)

/-- `MemStorage.getArticles`: sequential truthiness-guarded filters,
then the descending sort. -/
def getArticles (f : StoreFilters) (s : Store) : List Article :=
  let arts := s.values
  let arts := if truthy f.country then arts.filter (fun a => a.country == f.country) else arts
  let arts := if truthy f.category then arts.filter (fun a => a.category == f.category) else arts
  let arts :=
    match f.sources with
    | some srcs =>
        if 0 < srcs.length then arts.filter (fun a => sourcesMatch srcs a.source) else arts
    | none => arts
  sortByPublishedAt arts

/-- The conjunction of the three filter conditions of `getArticles`. -/
def matchesFilter (f : StoreFilters) (a : Article) : Bool :=
  (if truthy f.country then a.country == f.country else true) &&
  (if truthy f.category then a.category == f.category else true) &&
  (match f.sources with
   | some srcs => if 0 < srcs.length then sourcesMatch srcs a.source else true
   | none => true)

/-- The raw `sources` query input of `newsFiltersSchema`: either an
array of strings or a comma-separated string. -/
inductive RawSources where
  | arr (l : List String)
  | str (s : String)
deriving DecidableEq

/-- The transform of the string branch of the `sources` union:
`val.split(s).filter(s => s.trim() !== "")` on commas. -/
def parseSources : RawSources → List String
  | .arr l => l
  | .str s => (splitComma s).filter (fun t => !(jsTrim t == ""))

/-- The raw query-string input of `newsFiltersSchema`, after the
numeric coercion of `z.coerce.number()` (a non-numeric page or
pageSize string is already a parse failure and is not modelled). -/
structure RawFilters where
  country : Option String := none
  category : Option String := none
  sources : Option RawSources := none
  q : Option String := none
  fromDate : Option String := none
  toDate : Option String := none
  sortBy : Option String := none
  pageSize : Option Int := none
  page : Option Int := none
deriving DecidableEq

/-- The parsed `NewsFilters` value. -/
structure NewsFilters where
  country : Option String := none
  category : Option String := none
  sources : Option (List String) := none
  q : Option String := none
  fromDate : Option String := none
  toDate : Option String := none
  sortBy : Option String := none
  pageSize : Option Int := none
  page : Option Int := none
deriving DecidableEq

def sortByValues : List String := ["relevancy", "popularity", "publishedAt"]

/-- The `z.enum` check on `sortBy`. -/
def checkSortBy : Option String → Except String (Option String)
  | none => .ok none
  | some sb => if sortByValues.contains sb then .ok (some sb) else .error "invalid sortBy"

/-- The `z.coerce.number().min(1).max(100).optional()` check on `pageSize`. -/
def checkPageSize : Option Int → Except String (Option Int)
  | none => .ok none
  | some n => if 1 ≤ n ∧ n ≤ 100 then .ok (some n) else .error "pageSize out of range"

/-- The `z.coerce.number().min(1).optional()` check on `page`. -/
def checkPage : Option Int → Except String (Option Int)
  | none => .ok none
  | some n => if 1 ≤ n then .ok (some n) else .error "page out of range"

/-- `newsFiltersSchema.parse`: validate `sortBy`, `pageSize`, `page`,
normalize `sources`, pass the remaining optional strings through. -/
def parseNewsFilters (raw : RawFilters) : Except String NewsFilters :=
  match checkSortBy raw.sortBy with
  | .error e => .error e
  | .ok sb =>
      match checkPageSize raw.pageSize with
      | .error e => .error e
      | .ok ps =>
          match checkPage raw.page with
          | .error e => .error e
          | .ok pg =>
              .ok { country := raw.country
                    category := raw.category
                    sources := raw.sources.map parseSources
                    q := raw.q
                    fromDate := raw.fromDate
                    toDate := raw.toDate
                    sortBy := sb
                    pageSize := ps
                    page := pg }

/-- `URLSearchParams.set`: replace in place when the key exists, append otherwise. -/
def setParam : List (String × String) → String → String → List (String × String)
  | [], k, v => [(k, v)]
  | (k', v') :: rest, k, v =>
      if k' == k then (k, v) :: rest else (k', v') :: setParam rest k v

/-- `URLSearchParams.get`. -/
def lookupParam : List (String × String) → String → Option String
  | [], _ => none
  | (k, v) :: rest, key => if k == key then some v else lookupParam rest key

/-- JavaScript truthiness of a possibly-absent number: 0 is falsy. -/
def truthyInt : Option Int → Bool
  | some n => !(n == 0)
  | none => false

/-- `NewsService.fetchTopHeadlines` up to the provider call: the query
parameters it resolves, including the trailing us-country default that
fires only when the `sources` field is entirely absent and `country`
is falsy. -/
def fetchTopHeadlinesParams (f : NewsFilters) : List (String × String) :=
  let p : List (String × String) := []
  let p := if truthy f.country then setParam p "country" (f.country.getD "") else p
  let p := if truthy f.category then setParam p "category" (f.category.getD "") else p
  let p :=
    match f.sources with
    | some srcs =>
        if 0 < srcs.length then setParam p "sources" (String.intercalate "," srcs) else p
    | none => p
  let p := if truthy f.q then setParam p "q" (f.q.getD "") else p
  let p := if truthyInt f.pageSize then setParam p "pageSize" (toString (f.pageSize.getD 0)) else p
  let p := if truthyInt f.page then setParam p "page" (toString (f.page.getD 0)) else p
  if f.sources.isNone && !truthy f.country then setParam p "country" "us" else p

/-- `NewsService.searchEverything` up to the provider call: the query
parameters it resolves, including the fallback query that fires when
`q` is falsy and `sources` is absent or empty. -/
def searchEverythingParams (f : NewsFilters) : List (String × String) :=
  let p : List (String × String) := []
  let p := if truthy f.q then setParam p "q" (f.q.getD "") else p
  let p :=
    match f.sources with
    | some srcs =>
        if 0 < srcs.length then setParam p "sources" (String.intercalate "," srcs) else p
    | none => p
  let p := if truthy f.fromDate then setParam p "from" (f.fromDate.getD "") else p
  let p := if truthy f.toDate then setParam p "to" (f.toDate.getD "") else p
  let p := if truthy f.sortBy then setParam p "sortBy" (f.sortBy.getD "") else p
  let p := if truthyInt f.pageSize then setParam p "pageSize" (toString (f.pageSize.getD 0)) else p
  let p := if truthyInt f.page then setParam p "page" (toString (f.page.getD 0)) else p
  if !truthy f.q && (f.sources.isNone || (f.sources.getD []).length == 0) then
    setParam p "q" "technology"
  else p

/-- Outcome of the single `ai.models.generateContent` call: a thrown
error (timeout or transport failure), or a response whose `text` field
is an optional string. -/
inductive EngineOutcome where
  | err
  | ok (text : Option String)
deriving DecidableEq

inductive SummaryLength where
  | short
  | medium
  | long
deriving DecidableEq

def lengthInstruction : SummaryLength → String
  | .short => "Summarize in 1-2 concise sentences"
  | .medium => "Summarize in 3-4 sentences with key details"
  | .long => "Summarize in 5-6 sentences with comprehensive details"

/-- `GeminiService.summarizeArticle`: on a thrown engine error return
the fixed processing-error fallback; otherwise trim the response text
and fall back to a different string when it is absent or empty. -/
def geminiSummarizeArticle (title content : String) (len : SummaryLength)
    (outcome : EngineOutcome) : String :=
  let _prompt := lengthInstruction len ++ " the following news article: " ++ title ++ " " ++ content
  match outcome with
  | .err => "Summary unavailable due to processing error"
  | .ok t =>
      let s := jsTrim (t.getD "")
      if s == "" then "Unable to generate summary" else s

inductive RouteError where
  | notFound
  | serverError
deriving DecidableEq

/-- The `||` chain `article.content || article.description || ""`. -/
def orElseStr (o : Option String) (d : String) : String :=
  match o with
  | some s => if s == "" then d else s
  | none => d

/-- The `POST summarize-article/:id` handler: list the stored articles,
find the one whose id matches, 404 when absent, otherwise summarize
and persist the summary through `updateArticle`. -/
def routeSummarizeArticle (s : Store) (id : Nat) (len : SummaryLength)
    (outcome : EngineOutcome) : Except RouteError (Article × String) × Store :=
  let articles := getArticles noFilters s
  match articles.find? (fun a => a.id == id) with
  | none => (.error .notFound, s)
  | some article =>
      let summary := geminiSummarizeArticle article.title
        (orElseStr article.content (orElseStr article.description "")) len outcome
      match updateArticle s id { aiSummary := some (some summary) } with
      | .ok (updated, s') => (.ok (updated, summary), s')
      | .error _ => (.error .serverError, s)

/-- An input article of `GeminiService.generateTopicSummary`
(`{title, content, description?, url, source: any}`). -/
structure TopicArticle where
  title : String
  content : String
  description : Option String
  url : String
  source : Option Source
deriving DecidableEq

structure SourceLink where
  title : String
  url : String
  source : String
deriving DecidableEq

structure TopicResult where
  summary : String
  sourceLinks : List SourceLink
deriving DecidableEq

/-- The citation entry built for each input article:
`{title, url, source: article.source?.name || "Unknown Source"}`. -/
def topicSourceLink (a : TopicArticle) : SourceLink :=
  { title := a.title
    url := a.url
    source :=
      match a.source with
      | some s => if s.name == "" then "Unknown Source" else s.name
      | none => "Unknown Source" }

/-- `GeminiService.generateTopicSummary`: one engine call; on success
the trimmed text (or an empty-response fallback), on a thrown error a
fixed fallback summary — and in both branches the same `sourceLinks`
mapped from the input articles. -/
def generateTopicSummary (topic : String) (articles : List TopicArticle)
    (outcome : EngineOutcome) : TopicResult :=
  let _prompt := "You are a news analyst. Based on the following articles about " ++ topic
  match outcome with
  | .ok t =>
      let s := jsTrim (t.getD "")
      { summary := if s == "" then "Unable to generate topic summary" else s
        sourceLinks := articles.map topicSourceLink }
  | .err =>
      { summary := "Unable to generate topic summary due to processing error"
        sourceLinks := articles.map topicSourceLink }

/-- The fixed ordered list of voice-command command phrases stripped
by `processVoiceCommand`. -/
def voicePrefixes : List String :=
  ["search for", "find", "show me", "get", "look for", "filter"]

/-- `processVoiceCommand`: strip the first list-order phrase that the
lower-cased command starts with from the original-cased command and
trim; otherwise keep the command. -/
def processVoiceCommand (command : String) : String :=
  match voicePrefixes.find? (fun p => jsStartsWith (jsToLower command) p) with
  | some p => jsTrim (jsDrop command p.length)
  | none => command

/-- The normalizer as invoked on a finalized transcript: the
`onResult` handler trims the transcript before processing it. -/
def voiceNormalize (raw : String) : String := processVoiceCommand (jsTrim raw)

/-- The query update the hook performs for a finalized transcript:
`onResult` ignores blank transcripts, and `processVoiceCommand` only
invokes `onSearch` when the stripped query is non-empty. -/
def voiceQueryUpdate (transcript : String) : Option String :=
  if jsTrim transcript == "" then none
  else
    let q := processVoiceCommand (jsTrim transcript)
    if q == "" then none else some q

/-! Lemmas about the stable descending sort. -/

theorem insertDesc_perm (a : Article) (l : List Article) :
    (insertDesc a l).Perm (a :: l) := by
  induction l with
  | nil => exact List.Perm.refl _
  | cons b l ih =>
      simp only [insertDesc]
      split
      · exact ((ih.cons b).trans (List.Perm.swap a b l))
      · exact List.Perm.refl _

theorem sortByPublishedAt_perm (l : List Article) :
    (sortByPublishedAt l).Perm l := by
  induction l with
  | nil => exact List.Perm.refl _
  | cons a l ih => exact (insertDesc_perm a _).trans (ih.cons a)

theorem mem_sortByPublishedAt {a : Article} {l : List Article} :
    a ∈ sortByPublishedAt l ↔ a ∈ l :=
  (sortByPublishedAt_perm l).mem_iff

theorem insertDesc_pairwise (a : Article) (l : List Article)
    (h : l.Pairwise (fun x y => y.publishedAt ≤ x.publishedAt)) :
    (insertDesc a l).Pairwise (fun x y => y.publishedAt ≤ x.publishedAt) := by
  induction l with
  | nil => simp [insertDesc]
  | cons b l ih =>
      rcases List.pairwise_cons.mp h with ⟨hb, hl⟩
      simp only [insertDesc]
      split
      case isTrue hlt =>
        refine List.pairwise_cons.mpr ⟨?_, ih hl⟩
        intro x hx
        rcases List.mem_cons.mp ((insertDesc_perm a l).mem_iff.mp hx) with rfl | hxl
        · exact le_of_lt hlt
        · exact hb x hxl
      case isFalse hge =>
        refine List.pairwise_cons.mpr ⟨?_, h⟩
        intro x hx
        rcases List.mem_cons.mp hx with rfl | hxl
        · exact not_lt.mp hge
        · exact le_trans (hb x hxl) (not_lt.mp hge)

theorem sortByPublishedAt_pairwise (l : List Article) :
    (sortByPublishedAt l).Pairwise (fun x y => y.publishedAt ≤ x.publishedAt) := by
  induction l with
  | nil => simp [sortByPublishedAt]
  | cons a l ih => exact insertDesc_pairwise a _ ih

theorem insertDesc_filter_pos (a : Article) (l : List Article) (t : Int)
    (ha : a.publishedAt = t) :
    (insertDesc a l).filter (fun b => b.publishedAt == t)
      = a :: l.filter (fun b => b.publishedAt == t) := by
  induction l with
  | nil => simp [insertDesc, List.filter_cons, ha]
  | cons b l ih =>
      simp only [insertDesc]
      split
      case isTrue hlt =>
        have hbt : ¬ b.publishedAt = t := by omega
        simp [List.filter_cons, hbt, ih]
      case isFalse hge =>
        simp [List.filter_cons, ha]

theorem insertDesc_filter_neg (a : Article) (l : List Article) (t : Int)
    (ha : ¬ a.publishedAt = t) :
    (insertDesc a l).filter (fun b => b.publishedAt == t)
      = l.filter (fun b => b.publishedAt == t) := by
  induction l with
  | nil => simp [insertDesc, List.filter_cons, ha]
  | cons b l ih =>
      simp only [insertDesc]
      split
      case isTrue hlt =>
        simp [List.filter_cons, ih]
      case isFalse hge =>
        simp [List.filter_cons, ha]

theorem sortByPublishedAt_filter_key (l : List Article) (t : Int) :
    (sortByPublishedAt l).filter (fun b => b.publishedAt == t)
      = l.filter (fun b => b.publishedAt == t) := by
  induction l with
  | nil => rfl
  | cons a l ih =>
      by_cases ha : a.publishedAt = t
      · rw [sortByPublishedAt, insertDesc_filter_pos _ _ _ ha, ih]
        simp [List.filter_cons, ha]
      · rw [sortByPublishedAt, insertDesc_filter_neg _ _ _ ha, ih]
        simp [List.filter_cons, ha]

/-! Lemmas about the store map and parameter maps. -/

theorem lookup_mapSet (e : List (Nat × Article)) (k : Nat) (v : Article) (k' : Nat) :
    lookupEntry (mapSet e k v) k' = if k' = k then some v else lookupEntry e k' := by
  induction e with
  | nil =>
      by_cases h : k' = k
      · simp [mapSet, lookupEntry, h]
      · have h' : ¬ k = k' := fun hh => h hh.symm
        simp [mapSet, lookupEntry, h, h']
  | cons p rest ih =>
      obtain ⟨pk, pa⟩ := p
      simp only [mapSet]
      by_cases hpk : pk = k
      · subst hpk
        by_cases h : k' = pk
        · simp [lookupEntry, h]
        · have h' : ¬ pk = k' := fun hh => h hh.symm
          simp [lookupEntry, h, h']
      · by_cases h : k' = pk
        · have h1 : pk = k' := h.symm
          have h2 : ¬ k' = k := fun hh => hpk (h ▸ hh)
          simp [lookupEntry, h1, h2]
        · have h' : ¬ pk = k' := fun hh => h hh.symm
          simp [lookupEntry, hpk, h', ih]

theorem mapSet_fresh (e : List (Nat × Article)) (k : Nat) (v : Article)
    (h : k ∉ e.map (fun p => p.1)) : mapSet e k v = e ++ [(k, v)] := by
  induction e with
  | nil => rfl
  | cons p rest ih =>
      obtain ⟨pk, pa⟩ := p
      simp only [List.map_cons, List.mem_cons] at h
      push_neg at h
      simp [mapSet, Ne.symm h.1, ih h.2]

theorem good_lookup (e : List (Nat × Article)) (a : Article) (id : Nat)
    (hnd : (e.map (fun p => p.1)).Nodup)
    (hids : ∀ p ∈ e, (p.2).id = p.1)
    (hmem : a ∈ e.map (fun p => p.2)) (hid : a.id = id) :
    lookupEntry e id = some a := by
  induction e with
  | nil => simp at hmem
  | cons p rest ih =>
      obtain ⟨pk, pa⟩ := p
      simp only [List.map_cons, List.mem_cons] at hmem
      have hpk : pa.id = pk := hids (pk, pa) (List.mem_cons_self _ _)
      rcases hmem with rfl | hmem
      · have hk : pk = id := by rw [← hpk, hid]
        simp [lookupEntry, hk]
      · have hrest : lookupEntry rest id = some a := by
          refine ih ?_ ?_ hmem
          · exact (List.nodup_cons.mp hnd).2
          · intro q hq; exact hids q (List.mem_cons_of_mem _ hq)
        have hne : pk ≠ id := by
          intro h
          subst h
          have : a.id ∈ rest.map (fun p => p.1) := by
            have := hids
            rcases List.mem_map.mp hmem with ⟨q, hq, rfl⟩
            have := hids q (List.mem_cons_of_mem _ hq)
            exact this ▸ List.mem_map_of_mem (fun p => p.1) hq
          rw [hid] at this
          exact (List.nodup_cons.mp hnd).1 this
        simp [lookupEntry, hne, hrest]

theorem lookup_setParam (p : List (String × String)) (k v key : String) :
    lookupParam (setParam p k v) key = if key = k then some v else lookupParam p key := by
  induction p with
  | nil =>
      by_cases h : key = k
      · simp [setParam, lookupParam, h]
      · have h' : ¬ k = key := fun hh => h hh.symm
        simp [setParam, lookupParam, h, h']
  | cons q rest ih =>
      obtain ⟨qk, qv⟩ := q
      simp only [setParam]
      by_cases hqk : qk = k
      · subst hqk
        by_cases h : key = qk
        · simp [lookupParam, h]
        · have h' : ¬ qk = key := fun hh => h hh.symm
          simp [lookupParam, h, h']
      · by_cases h : key = qk
        · have h1 : qk = key := h.symm
          have h2 : ¬ key = k := fun hh => hqk (h ▸ hh)
          simp [lookupParam, h1, h2]
        · have h' : ¬ qk = key := fun hh => h hh.symm
          simp [lookupParam, hqk, h', ih]

theorem ite_filter (c : Bool) (p : Article → Bool) (l : List Article) :
    (if c = true then l.filter p else l)
      = l.filter (fun a => if c = true then p a else true) := by
  cases c <;> simp

/-- The sequential filters of `getArticles` fuse into a single filter
by the conjunction `matchesFilter`. -/
theorem getArticles_eq (f : StoreFilters) (s : Store) :
    getArticles f s = sortByPublishedAt ((s.values).filter (matchesFilter f)) := by
  unfold getArticles
  cases hsrc : f.sources with
  | none =>
      refine congrArg sortByPublishedAt ?_
      rw [ite_filter, ite_filter, List.filter_filter]
      refine List.filter_congr ?_
      intro a _
      simp only [matchesFilter, hsrc]
      cases hc : truthy f.country <;> cases hg : truthy f.category <;>
        cases a.country == f.country <;> cases a.category == f.category <;> simp
  | some srcs =>
      refine congrArg sortByPublishedAt ?_
      by_cases hlen : 0 < srcs.length
      · simp only [if_pos hlen]
        rw [ite_filter, ite_filter, List.filter_filter, List.filter_filter]
        refine List.filter_congr ?_
        intro a _
        simp only [matchesFilter, hsrc, if_pos hlen]
        cases hc : truthy f.country <;> cases hg : truthy f.category <;>
          cases a.country == f.country <;> cases a.category == f.category <;>
          cases sourcesMatch srcs a.source <;> simp
      · simp only [if_neg hlen]
        rw [ite_filter, ite_filter, List.filter_filter]
        refine List.filter_congr ?_
        intro a _
        simp only [matchesFilter, hsrc, if_neg hlen]
        cases hc : truthy f.country <;> cases hg : truthy f.category <;>
          cases a.country == f.country <;> cases a.category == f.category <;> simp

theorem mapSet_keys (e : List (Nat × Article)) (k : Nat) (v : Article) :
    (mapSet e k v).map (fun p => p.1)
      = if k ∈ e.map (fun p => p.1) then e.map (fun p => p.1)
        else e.map (fun p => p.1) ++ [k] := by
  induction e with
  | nil => simp [mapSet]
  | cons p rest ih =>
      obtain ⟨pk, pa⟩ := p
      by_cases hpk : pk = k
      · subst hpk
        simp [mapSet]
      · have h' : ¬ k = pk := fun hh => hpk hh.symm
        simp only [mapSet, if_neg hpk, List.map_cons, List.mem_cons, ih]
        by_cases hm : k ∈ rest.map (fun p => p.1)
        · simp [hm, h']
        · simp [hm, h']

theorem lookup_some_mem (e : List (Nat × Article)) (id : Nat) (v : Article)
    (h : lookupEntry e id = some v) : id ∈ e.map (fun p => p.1) := by
  induction e with
  | nil => simp [lookupEntry] at h
  | cons p rest ih =>
      obtain ⟨pk, pa⟩ := p
      by_cases hpk : pk = id
      · simp [hpk]
      · simp only [lookupEntry, if_neg hpk] at h
        simp [ih h]

/-! Concrete fixtures used by the counterexamples and witnesses. -/

def draft1 : InsertArticle :=
  { title := "Budget passes"
    description := none
    content := none
    url := "https://example.org/a"
    urlToImage := none
    publishedAt := 10
    source := { id := some "bbc-news", name := "BBC News" }
    author := none
    category := none
    country := none
    aiSummary := none }

def articleA : Article := (createArticle 5 draft1 emptyStore).1

def storeA : Store := (createArticle 5 draft1 emptyStore).2

/-- C1, as the claim states it, asserts that `articleA` — whose
`source.id` is in the filter list while its `source.name` is not —
is included; the code excludes it. -/
def c1Filters : StoreFilters :=
  { country := none, category := none, sources := some ["bbc-news"] }

/-- C1 counterexample: the stored article's `source.id` is in the
sources filter list, yet `getArticles` excludes the article, because
the membership test uses `source.name || source.id` and the non-empty
name shadows the id. -/
theorem c1_counterexample :
    articleA.source.id = some "bbc-news"
    ∧ "bbc-news" ∈ ["bbc-news"]
    ∧ articleA ∈ storeA.values
    ∧ articleA ∉ getArticles c1Filters storeA := by
  refine ⟨rfl, by decide, by decide, by decide⟩

/-- C1 (amended): with a sources filter list, an article is returned
exactly when it is stored and either the list is empty (the filter is
skipped) or the list contains `source.name` when the name is
non-empty, and otherwise contains `source.id`. -/
theorem c1_sources_match (s : Store) (srcs : List String) (a : Article) :
    a ∈ getArticles { country := none, category := none, sources := some srcs } s
      ↔ a ∈ s.values ∧ (srcs = [] ∨ sourcesMatch srcs a.source = true) := by
  rw [getArticles_eq, mem_sortByPublishedAt, List.mem_filter]
  cases srcs with
  | nil => simp [matchesFilter, truthy]
  | cons h t => simp [matchesFilter, truthy]

/-- C7: `getArticles` returns a permutation of the matching stored
records, pairwise sorted by `publishedAt` descending, and stable: the
articles at each timestamp appear exactly as in insertion order. -/
theorem c7_sorted_stable (s : Store) (f : StoreFilters) :
    (getArticles f s).Perm ((s.values).filter (matchesFilter f))
    ∧ (getArticles f s).Pairwise (fun x y => y.publishedAt ≤ x.publishedAt)
    ∧ ∀ t : Int,
        (getArticles f s).filter (fun a => a.publishedAt == t)
          = ((s.values).filter (matchesFilter f)).filter (fun a => a.publishedAt == t) := by
  refine ⟨?_, ?_, ?_⟩
  · rw [getArticles_eq]; exact sortByPublishedAt_perm _
  · rw [getArticles_eq]; exact sortByPublishedAt_pairwise _
  · intro t; rw [getArticles_eq]; exact sortByPublishedAt_filter_key _ t

/-- Process-lifetime well-formedness of the store: keys are distinct
and all below the fresh-id counter. -/
def Store.Wf (s : Store) : Prop :=
  s.keys.Nodup ∧ ∀ k ∈ s.keys, k < s.nextId

/-- C2 probe: the `createdAt` stored after an update whose partial
carries a `createdAt` key. -/
def updatedCreatedAtProbe : Option Int :=
  match updateArticle storeA 0 { createdAt := some 999 } with
  | .ok (a, _) => some a.createdAt
  | .error _ => none

/-- C2 probe: the `id` stored after an update whose partial carries an
`id` key. -/
def updatedIdProbe : Option Nat :=
  match updateArticle storeA 0 { id := some 42 } with
  | .ok (a, _) => some a.id
  | .error _ => none

/-- C2 counterexample: `updateArticle` merges `{...existing, ...updates}`
over the whole `Partial<Article>`, so a partial update that carries a
`createdAt` (or `id`) key overwrites the supposedly immutable field:
the claim's "for every partial update" fails. -/
theorem c2_counterexample :
    articleA.createdAt = 5 ∧ articleA.id = 0
    ∧ updatedCreatedAtProbe = some 999
    ∧ updatedIdProbe = some 42 := by
  exact ⟨rfl, rfl, rfl, rfl⟩

/-- C2 (amended): `createArticle` assigns a fresh id — never reusing a
live key — together with the creation timestamp, and any update whose
partial does not itself carry an `id` or `createdAt` key preserves
both fields of the target and leaves every other record untouched. -/
theorem c2_id_createdAt_stability (s : Store) (now : Int) (draft : InsertArticle)
    (id : Nat) (u : PartialArticle) (hwf : s.Wf)
    (hid : u.id = none) (hcr : u.createdAt = none) :
    ((createArticle now draft s).1.id ∉ s.keys
      ∧ ((createArticle now draft s).2).Wf
      ∧ (createArticle now draft s).1.createdAt = now
      ∧ lookupEntry ((createArticle now draft s).2).entries (createArticle now draft s).1.id
          = some (createArticle now draft s).1)
    ∧ (∀ a s', updateArticle s id u = .ok (a, s') →
        (∃ old, lookupEntry s.entries id = some old
          ∧ a.id = old.id ∧ a.createdAt = old.createdAt)
        ∧ s'.Wf
        ∧ ∀ k, lookupEntry s'.entries k = if k = id then some a else lookupEntry s.entries k) := by
  have hfresh : s.nextId ∉ s.keys := by
    intro h
    exact absurd (hwf.2 _ h) (lt_irrefl _)
  have hfresh' : s.nextId ∉ s.entries.map (fun p => p.1) := hfresh
  have hkeys : ((createArticle now draft s).2).keys
      = s.entries.map (fun p => p.1) ++ [s.nextId] := by
    have h0 : ((createArticle now draft s).2).keys
        = (mapSet s.entries s.nextId (createArticle now draft s).1).map (fun p => p.1) := rfl
    rw [h0, mapSet_keys, if_neg hfresh']
  constructor
  · refine ⟨hfresh, ?_, rfl, ?_⟩
    · constructor
      · rw [hkeys, List.nodup_append]
        refine ⟨hwf.1, List.nodup_singleton _, ?_⟩
        intro k hk hk1
        rcases List.mem_singleton.mp hk1 with rfl
        exact hfresh' hk
      · intro k hk
        show k < s.nextId + 1
        rw [hkeys] at hk
        rcases List.mem_append.mp hk with h | h
        · exact Nat.lt_succ_of_lt (hwf.2 _ h)
        · rcases List.mem_singleton.mp h with rfl
          exact Nat.lt_succ_self _
    · have h0 : ((createArticle now draft s).2).entries
          = mapSet s.entries s.nextId (createArticle now draft s).1 := rfl
      have h1 : (createArticle now draft s).1.id = s.nextId := rfl
      rw [h0, h1, lookup_mapSet]
      simp
  · intro a s' hup
    cases hl : lookupEntry s.entries id with
    | none => rw [updateArticle, hl] at hup; exact absurd hup (by simp)
    | some old =>
        rw [updateArticle, hl] at hup
        simp only [Except.ok.injEq, Prod.mk.injEq] at hup
        obtain ⟨ha, hs'⟩ := hup
        refine ⟨⟨old, rfl, ?_, ?_⟩, ?_, ?_⟩
        · rw [← ha]; simp [applyUpdates, hid]
        · rw [← ha]; simp [applyUpdates, hcr]
        · subst hs'
          constructor
          · show ((mapSet s.entries id _).map (fun p => p.1)).Nodup
            rw [mapSet_keys, if_pos (lookup_some_mem _ _ _ hl)]
            exact hwf.1
          · intro k hk
            show k < s.nextId
            have hks : (mapSet s.entries id (applyUpdates old u)).map (fun p => p.1) = s.keys := by
              rw [mapSet_keys, if_pos (lookup_some_mem _ _ _ hl)]
              rfl
            exact hwf.2 _ (by
              have : k ∈ (mapSet s.entries id (applyUpdates old u)).map (fun p => p.1) := hk
              rwa [hks] at this)
        · intro k
          subst hs'
          rw [← ha]
          exact lookup_mapSet _ _ _ _

/-- C2 witness: the amended theorem applied to the empty store, a
concrete draft and the empty partial update. -/
theorem c2_witness :
    (createArticle 0 draft1 emptyStore).1.createdAt = 0 :=
  ((c2_id_createdAt_stability emptyStore 0 draft1 0 {}
      ⟨by simp [emptyStore, Store.keys], by simp [emptyStore, Store.keys]⟩
      rfl rfl).1).2.2.1

theorem lookup_ite_setParam (c : Bool) (p : List (String × String)) (k v key : String) :
    lookupParam (if c = true then setParam p k v else p) key
      = if c && key == k then some v else lookupParam p key := by
  cases c
  · simp
  · by_cases h : key = k <;> simp [lookup_setParam, h]

theorem lookup_nil (key : String) : lookupParam [] key = none := rfl

/-- The country parameter `fetchTopHeadlines` sends: the caller's
country when truthy, otherwise the us default exactly when the
`sources` field is absent. -/
theorem headlines_country_param (f : NewsFilters) :
    lookupParam (fetchTopHeadlinesParams f) "country"
      = if truthy f.country then f.country
        else if f.sources.isNone then some "us" else none := by
  unfold fetchTopHeadlinesParams
  cases hsrc : f.sources with
  | none =>
      simp only [lookup_ite_setParam, lookup_nil]
      cases hc : truthy f.country
      · simp
      · cases hco : f.country with
        | none => rw [hco] at hc; simp [truthy] at hc
        | some c => simp
  | some srcs =>
      by_cases hlen : 0 < srcs.length
      · simp only [if_pos hlen, lookup_ite_setParam, lookup_setParam, lookup_nil]
        cases hc : truthy f.country
        · simp
        · cases hco : f.country with
          | none => rw [hco] at hc; simp [truthy] at hc
          | some c => simp
      · simp only [if_neg hlen, lookup_ite_setParam, lookup_nil]
        cases hc : truthy f.country
        · simp
        · cases hco : f.country with
          | none => rw [hco] at hc; simp [truthy] at hc
          | some c => simp

/-- The query parameter `searchEverything` sends: the caller's query
when truthy, otherwise the fixed fallback exactly when the `sources`
field is absent or the list is empty. -/
theorem search_q_param (f : NewsFilters) :
    lookupParam (searchEverythingParams f) "q"
      = if truthy f.q then f.q
        else if f.sources.isNone || (f.sources.getD []).length == 0 then some "technology"
        else none := by
  unfold searchEverythingParams
  cases hsrc : f.sources with
  | none =>
      simp only [lookup_ite_setParam, lookup_nil]
      cases hq : truthy f.q
      · simp
      · cases hqo : f.q with
        | none => rw [hqo] at hq; simp [truthy] at hq
        | some c => simp
  | some srcs =>
      by_cases hlen : 0 < srcs.length
      · have hne : srcs.length ≠ 0 := Nat.pos_iff_ne_zero.mp hlen
        simp only [if_pos hlen, lookup_ite_setParam, lookup_setParam, lookup_nil]
        cases hq : truthy f.q
        · simp [hne]
        · cases hqo : f.q with
          | none => rw [hqo] at hq; simp [truthy] at hq
          | some c => simp
      · have hz : srcs.length = 0 := Nat.eq_zero_of_not_pos hlen
        simp only [if_neg hlen, lookup_ite_setParam, lookup_nil]
        cases hq : truthy f.q
        · simp [hz]
        · cases hqo : f.q with
          | none => rw [hqo] at hq; simp [truthy] at hq
          | some c => simp

/-- The pageSize parameter `fetchTopHeadlines` sends: present exactly
when the filter's pageSize is present and non-zero. -/
theorem headlines_pageSize_param (f : NewsFilters) :
    lookupParam (fetchTopHeadlinesParams f) "pageSize"
      = if truthyInt f.pageSize then some (toString (f.pageSize.getD 0)) else none := by
  unfold fetchTopHeadlinesParams
  cases hsrc : f.sources with
  | none =>
      simp only [lookup_ite_setParam, lookup_nil]
      cases truthyInt f.pageSize <;> simp
  | some srcs =>
      by_cases hlen : 0 < srcs.length
      · simp only [if_pos hlen, lookup_ite_setParam, lookup_setParam, lookup_nil]
        cases truthyInt f.pageSize <;> simp
      · simp only [if_neg hlen, lookup_ite_setParam, lookup_nil]
        cases truthyInt f.pageSize <;> simp

/-- The page parameter `fetchTopHeadlines` sends: present exactly when
the filter's page is present and non-zero. -/
theorem headlines_page_param (f : NewsFilters) :
    lookupParam (fetchTopHeadlinesParams f) "page"
      = if truthyInt f.page then some (toString (f.page.getD 0)) else none := by
  unfold fetchTopHeadlinesParams
  cases hsrc : f.sources with
  | none =>
      simp only [lookup_ite_setParam, lookup_nil]
      cases truthyInt f.page <;> simp
  | some srcs =>
      by_cases hlen : 0 < srcs.length
      · simp only [if_pos hlen, lookup_ite_setParam, lookup_setParam, lookup_nil]
        cases truthyInt f.page <;> simp
      · simp only [if_neg hlen, lookup_ite_setParam, lookup_nil]
        cases truthyInt f.page <;> simp

def emptyRawFilters : RawFilters := {}

def parsedEmptyFilters : NewsFilters := {}

/-- C5 counterexample: parsing a filter with no pageSize and no page
succeeds but fills neither default — both stay absent, and the
provider request built from the parsed filter carries neither
parameter. The schema has no `.default(20)` or `.default(1)`. -/
theorem c5_counterexample :
    parseNewsFilters emptyRawFilters = .ok parsedEmptyFilters
    ∧ parsedEmptyFilters.pageSize ≠ some 20
    ∧ parsedEmptyFilters.page ≠ some 1
    ∧ lookupParam (fetchTopHeadlinesParams parsedEmptyFilters) "pageSize" = none
    ∧ lookupParam (fetchTopHeadlinesParams parsedEmptyFilters) "page" = none := by
  exact ⟨rfl, by decide, by decide, rfl, rfl⟩

/-- C5 (amended): a pageSize outside 1..100 or a page below 1 is
rejected by the schema with a validation error, and an absent pageSize
or page stays absent after parsing — it is not defaulted to 20 or 1,
and the provider request simply omits the parameter. -/
theorem c5_bounds_and_defaults (raw : RawFilters) :
    (∀ n : Int, raw.pageSize = some n → (n < 1 ∨ 100 < n) →
        ∃ e, parseNewsFilters raw = .error e)
    ∧ (∀ n : Int, raw.page = some n → n < 1 →
        ∃ e, parseNewsFilters raw = .error e)
    ∧ (∀ f, parseNewsFilters raw = .ok f →
        (raw.pageSize = none →
          f.pageSize = none ∧ lookupParam (fetchTopHeadlinesParams f) "pageSize" = none)
        ∧ (raw.page = none →
          f.page = none ∧ lookupParam (fetchTopHeadlinesParams f) "page" = none)) := by
  refine ⟨?_, ?_, ?_⟩
  · intro n hn hb
    have hcps : checkPageSize raw.pageSize = .error "pageSize out of range" := by
      rw [hn, checkPageSize, if_neg (by omega)]
    cases hsb : checkSortBy raw.sortBy with
    | error e => exact ⟨e, by simp only [parseNewsFilters, hsb]⟩
    | ok sb => exact ⟨"pageSize out of range", by simp only [parseNewsFilters, hsb, hcps]⟩
  · intro n hn hb
    have hcp : checkPage raw.page = .error "page out of range" := by
      rw [hn, checkPage, if_neg (by omega)]
    cases hsb : checkSortBy raw.sortBy with
    | error e => exact ⟨e, by simp only [parseNewsFilters, hsb]⟩
    | ok sb =>
        cases hps : checkPageSize raw.pageSize with
        | error e => exact ⟨e, by simp only [parseNewsFilters, hsb, hps]⟩
        | ok ps => exact ⟨"page out of range", by simp only [parseNewsFilters, hsb, hps, hcp]⟩
  · intro f hf
    cases hsb : checkSortBy raw.sortBy with
    | error e =>
        simp only [parseNewsFilters, hsb] at hf
        exact absurd hf (by simp)
    | ok sb =>
        cases hps : checkPageSize raw.pageSize with
        | error e =>
            simp only [parseNewsFilters, hsb, hps] at hf
            exact absurd hf (by simp)
        | ok ps =>
            cases hpg : checkPage raw.page with
            | error e =>
                simp only [parseNewsFilters, hsb, hps, hpg] at hf
                exact absurd hf (by simp)
            | ok pg =>
                simp only [parseNewsFilters, hsb, hps, hpg, Except.ok.injEq] at hf
                subst hf
                constructor
                · intro hnone
                  rw [hnone] at hps
                  have hpsn : ps = none := by
                    simp [checkPageSize] at hps
                    exact hps.symm
                  refine ⟨hpsn, ?_⟩
                  rw [headlines_pageSize_param]
                  simp [hpsn, truthyInt]
                · intro hnone
                  rw [hnone] at hpg
                  have hpgn : pg = none := by
                    simp [checkPage] at hpg
                    exact hpg.symm
                  refine ⟨hpgn, ?_⟩
                  rw [headlines_page_param]
                  simp [hpgn, truthyInt]

/-- C5 witness: the amended theorem applied at a concrete out-of-range
pageSize and at the empty raw filter. -/
theorem c5_witness :
    (∃ e, parseNewsFilters { pageSize := some 0 } = .error e)
    ∧ parsedEmptyFilters.pageSize = none :=
  ⟨(c5_bounds_and_defaults { pageSize := some 0 }).1 0 rfl (Or.inl (by decide)),
   (((c5_bounds_and_defaults emptyRawFilters).2.2 parsedEmptyFilters rfl).1 rfl).1⟩

/-- C6 (amended): the headlines call sends the caller's country when
it is truthy and otherwise defaults `country = "us"` exactly when the
`sources` field is entirely absent (a present-but-empty list blocks
the default); the search call sends the caller's query when truthy and
otherwise falls back to the fixed term "technology" exactly when
`sources` is absent or empty. All other cases pass through with no
default. -/
theorem c6_default_policy (f : NewsFilters) :
    (lookupParam (fetchTopHeadlinesParams f) "country"
      = if truthy f.country then f.country
        else if f.sources.isNone then some "us" else none)
    ∧ (lookupParam (searchEverythingParams f) "q"
      = if truthy f.q then f.q
        else if f.sources.isNone || (f.sources.getD []).length == 0 then some "technology"
        else none) :=
  ⟨headlines_country_param f, search_q_param f⟩

def emptySourcesFilters : NewsFilters := { sources := some [] }

/-- C6 counterexample: with `sources` given (but empty) and no query,
the claim's pass-through clause says no default is applied, yet the
search request carries the fallback query "technology". -/
theorem c6_counterexample :
    emptySourcesFilters.q = none
    ∧ emptySourcesFilters.sources = some []
    ∧ lookupParam (searchEverythingParams emptySourcesFilters) "q" = some "technology" :=
  ⟨rfl, rfl, rfl⟩

/-- C10: with a present-but-empty sources list and no country or
query, the headlines request carries no country parameter (the us
default is blocked by the present field), while the search request
does carry the fallback query — the two operations treat an empty
sources list differently. -/
theorem c10_empty_sources_asymmetry :
    emptySourcesFilters.country = none
    ∧ emptySourcesFilters.q = none
    ∧ emptySourcesFilters.sources = some []
    ∧ lookupParam (fetchTopHeadlinesParams emptySourcesFilters) "country" = none
    ∧ lookupParam (searchEverythingParams emptySourcesFilters) "q" = some "technology" :=
  ⟨rfl, rfl, rfl, rfl, rfl⟩

/-- C4: the topic summary's `sourceLinks` are exactly the input
articles mapped to `{title, url, source.name or "Unknown Source"}`,
one per article in input order — identically on engine success and on
engine failure. -/
theorem c4_source_links (topic : String) (arts : List TopicArticle) (outcome : EngineOutcome) :
    (generateTopicSummary topic arts outcome).sourceLinks = arts.map topicSourceLink
    ∧ ((generateTopicSummary topic arts outcome).sourceLinks).length = arts.length := by
  cases outcome <;> simp [generateTopicSummary]

/-- C8: when no stored article has the requested id, the summarize
route answers not-found and leaves the store untouched. -/
theorem c8_unknown_id_not_found (s : Store) (id : Nat) (len : SummaryLength)
    (outcome : EngineOutcome) (h : ∀ a ∈ s.values, a.id ≠ id) :
    routeSummarizeArticle s id len outcome = (.error .notFound, s) := by
  have hfind : (getArticles noFilters s).find? (fun a => a.id == id) = none := by
    rw [List.find?_eq_none]
    intro x hx
    have hxv : x ∈ s.values := by
      rw [getArticles_eq] at hx
      exact (List.mem_filter.mp (mem_sortByPublishedAt.mp hx)).1
    simp [h x hxv]
  simp only [routeSummarizeArticle, hfind]

/-- C8 witness: the theorem applied to the empty store. -/
theorem c8_witness :
    routeSummarizeArticle emptyStore 7 SummaryLength.medium .err
      = (.error .notFound, emptyStore) :=
  c8_unknown_id_not_found emptyStore 7 SummaryLength.medium .err
    (by simp [Store.values, emptyStore])

/-- The text `summarizeArticle` produces for each failure mode: the
fixed processing-error fallback on a thrown engine error, and a
different string on an absent or empty response. -/
def engineFailureText : EngineOutcome → String
  | .err => "Summary unavailable due to processing error"
  | .ok _ => "Unable to generate summary"

/-- C3 probe: the summary the route returns when the engine call
succeeds with an empty text. -/
def c3SummaryProbe : Option String :=
  match (routeSummarizeArticle storeA 0 SummaryLength.medium (.ok (some ""))).1 with
  | .ok (_, summary) => some summary
  | .error _ => none

/-- C3 counterexample: an empty engine response — one of the claim's
failure modes — yields the summary "Unable to generate summary", not
the claimed fixed fallback string. -/
theorem c3_counterexample :
    c3SummaryProbe = some "Unable to generate summary"
    ∧ "Unable to generate summary" ≠ "Summary unavailable due to processing error" :=
  ⟨rfl, by decide⟩

/-- C3 (amended): summarizeOne never propagates an engine failure: on
a thrown engine error the summary is the fixed fallback "Summary
unavailable due to processing error", on an absent or empty response
it is "Unable to generate summary"; in every failure mode the call
succeeds and the stored `aiSummary` equals the returned summary. -/
theorem c3_failure_fallback (s : Store) (id : Nat) (len : SummaryLength)
    (outcome : EngineOutcome) (a : Article)
    (hnd : s.keys.Nodup) (hids : ∀ p ∈ s.entries, (p.2).id = p.1)
    (hfind : (getArticles noFilters s).find? (fun x => x.id == id) = some a)
    (hfail : outcome = .err ∨ outcome = .ok none ∨ outcome = .ok (some "")) :
    ∃ a' s',
      routeSummarizeArticle s id len outcome = (.ok (a', engineFailureText outcome), s')
      ∧ a'.aiSummary = some (engineFailureText outcome)
      ∧ (lookupEntry s'.entries id).map (fun x => x.aiSummary)
          = some (some (engineFailureText outcome)) := by
  have hmem : a ∈ getArticles noFilters s := List.mem_of_find?_eq_some hfind
  have haid : a.id = id := by
    have := List.find?_some hfind
    simpa using this
  have hav : a ∈ s.values := by
    rw [getArticles_eq] at hmem
    exact (List.mem_filter.mp (mem_sortByPublishedAt.mp hmem)).1
  have hlook : lookupEntry s.entries id = some a := good_lookup s.entries a id hnd hids hav haid
  have hsum : geminiSummarizeArticle a.title
      (orElseStr a.content (orElseStr a.description "")) len outcome
      = engineFailureText outcome := by
    rcases hfail with rfl | rfl | rfl <;> rfl
  refine ⟨applyUpdates a { aiSummary := some (some (engineFailureText outcome)) },
    { s with entries :=
        mapSet s.entries id (applyUpdates a { aiSummary := some (some (engineFailureText outcome)) }) },
    ?_, ?_, ?_⟩
  · simp only [routeSummarizeArticle, hfind, hsum, updateArticle, hlook]
  · simp [applyUpdates]
  · rw [lookup_mapSet]
    simp [applyUpdates]

/-- C3 witness: the amended theorem applied to a one-article store and
an always-failing engine. -/
theorem c3_witness :
    ∃ a' s',
      routeSummarizeArticle storeA 0 SummaryLength.medium .err
        = (.ok (a', "Summary unavailable due to processing error"), s')
      ∧ a'.aiSummary = some "Summary unavailable due to processing error" := by
  obtain ⟨a', s', h1, h2, h3⟩ :=
    c3_failure_fallback storeA 0 SummaryLength.medium .err articleA
      (by decide) (by decide) (by decide) (Or.inl rfl)
  exact ⟨a', s', h1, h2⟩

/-- The first matching element of `find?` at a minimal index. -/
theorem find_first_eq {α : Type} (p : α → Bool) (l : List α) (i : Nat) (hi : i < l.length)
    (hp : p (l.get ⟨i, hi⟩) = true)
    (hmin : ∀ j, (hj : j < i) → p (l.get ⟨j, Nat.lt_trans hj hi⟩) = false) :
    l.find? p = some (l.get ⟨i, hi⟩) := by
  induction l generalizing i with
  | nil => exact absurd hi (by simp)
  | cons a t ih =>
      cases i with
      | zero => exact List.find?_cons_of_pos _ hp
      | succ i' =>
          have h0 : p a = false := hmin 0 (Nat.succ_pos i')
          rw [List.find?_cons_of_neg _ (by simp [h0])]
          exact ih i' (Nat.lt_of_succ_lt_succ hi) hp
            (fun j hj => hmin (j + 1) (Nat.succ_lt_succ hj))

/-- C9: the voice normalizer strips the first list-order command
phrase that the lower-cased trimmed transcript starts with from the
original-cased transcript and trims the remainder; with no matching
phrase it returns the trimmed transcript unchanged; and an empty
result triggers no query update. -/
theorem c9_voice_normalizer (raw : String) :
    (∀ i, (hi : i < voicePrefixes.length) →
        jsStartsWith (jsToLower (jsTrim raw)) (voicePrefixes.get ⟨i, hi⟩) = true →
        (∀ j, (hj : j < i) →
            jsStartsWith (jsToLower (jsTrim raw))
              (voicePrefixes.get ⟨j, Nat.lt_trans hj hi⟩) = false) →
        voiceNormalize raw
          = jsTrim (jsDrop (jsTrim raw) (voicePrefixes.get ⟨i, hi⟩).length))
    ∧ ((∀ p ∈ voicePrefixes, jsStartsWith (jsToLower (jsTrim raw)) p = false) →
        voiceNormalize raw = jsTrim raw)
    ∧ (voiceNormalize raw = "" → voiceQueryUpdate raw = none) := by
  refine ⟨?_, ?_, ?_⟩
  · intro i hi hp hmin
    have hf := find_first_eq
      (fun p => jsStartsWith (jsToLower (jsTrim raw)) p) voicePrefixes i hi hp hmin
    simp only [voiceNormalize, processVoiceCommand, hf]
  · intro h
    have hf : voicePrefixes.find? (fun p => jsStartsWith (jsToLower (jsTrim raw)) p) = none := by
      rw [List.find?_eq_none]
      intro x hx
      simp [h x hx]
    simp only [voiceNormalize, processVoiceCommand, hf]
  · intro h
    rw [voiceQueryUpdate]
    by_cases ht : (jsTrim raw == "") = true
    · rw [if_pos ht]
    · rw [if_neg ht]
      have hq : processVoiceCommand (jsTrim raw) = "" := h
      simp [hq]

/-- C9 witness: the normalizer applied to the spec's example phrase
(the third prefix, "show me", is the first match) and to a phrase that
strips to nothing, which yields no query update. -/
theorem c9_witness :
    voiceNormalize "Show me technology news from USA" = "technology news from USA"
    ∧ voiceQueryUpdate "Find " = none := by
  constructor
  · have h := (c9_voice_normalizer "Show me technology news from USA").1
      2 (by decide) (by decide) (by decide)
    exact h.trans (by decide)
  · exact (c9_voice_normalizer "Find ").2.2 (by decide)

end NewsCore
